import Mathlib

/-!
Verification of the expense-tracker command-line tool (`src/main.rs`).

The Rust program keeps an ordered vector of expense records, persists it as a
single JSON file, and offers add / delete-by-row / summary / list commands.
This file shallowly embeds the data model and the operations the claims talk
about:

* `NaiveDate` models chrono's `NaiveDate` (a zone-less calendar date), with
  its validity invariant `NaiveDate.valid` (month 1–12, day within the month,
  leap years as in the Gregorian calendar; years restricted to 0–9999, the
  four-digit range of the `%Y-%m-%d` wire format used by the store).
* `Expense` / `ExpenseTracker` mirror the two Rust structs; `amount : ℚ`
  models the `f64` amount with exact arithmetic.
* The summary functions mirror the Rust loops (`fold` with an accumulator),
  including the `as u8` truncation in `summary_by_month`.
* `Json`, `encodeTracker`, `decodeTracker` model the serde_json wire format
  `{"expenses": [{date, category, amount, description}, ...]}` with the date
  serialized as a `YYYY-MM-DD` string; the filesystem is a partial map from
  paths to the JSON value stored there.
* `summaryQueries` models the dispatch of the `summary` subcommand in `main`.
-/

namespace ExpenseRS

/-- Gregorian leap-year rule, as validated by chrono. -/
def isLeap (y : Nat) : Bool := y % 4 == 0 && (y % 100 != 0 || y % 400 == 0)

/-- Number of days of month `m` (1-based) in year `y`, as validated by chrono. -/
def daysInMonth (y m : Nat) : Nat :=
  if m == 2 then (if isLeap y then 29 else 28)
  else if m == 4 || m == 6 || m == 9 || m == 11 then 30
  else 31

/-- Model of chrono `NaiveDate`: a zone-less calendar date. -/
structure NaiveDate where
  year : Nat
  month : Nat
  day : Nat
deriving DecidableEq, Repr

/-- The invariant chrono maintains for every constructed `NaiveDate`
(restricted to the four-digit-year range written by the `%Y-%m-%d` format). -/
def NaiveDate.valid (d : NaiveDate) : Bool :=
  1 ≤ d.month && d.month ≤ 12 && 1 ≤ d.day && d.day ≤ daysInMonth d.year d.month
    && d.year ≤ 9999

/-- The `Expense` struct of `main.rs`: date, category, amount, description. -/
structure Expense where
  date : NaiveDate
  category : String
  amount : ℚ
  description : String
deriving DecidableEq, Repr

/-- The `ExpenseTracker` struct of `main.rs`: an ordered vector of expenses. -/
structure ExpenseTracker where
  expenses : List Expense
deriving DecidableEq, Repr

/-- `ExpenseTracker::new`: the empty tracker. -/
def ExpenseTracker.new : ExpenseTracker := ⟨[]⟩

/-- `ExpenseTracker::add_expense`: `self.expenses.push(expense)` appends at
the end. -/
def ExpenseTracker.add_expense (t : ExpenseTracker) (e : Expense) : ExpenseTracker :=
  ⟨t.expenses ++ [e]⟩

/-- `Vec::remove(index)`: removes and returns the vector without the element
at `index`, panicking (`none`) when `index` is out of bounds. -/
def vecRemove {α : Type} (l : List α) (i : Nat) : Option (List α) :=
  if i < l.length then some (l.eraseIdx i) else none

/-- `ExpenseTracker::delete_expense(row_number)`: after (only) printing a
message when the vector is empty, it unconditionally runs
`self.expenses.remove(row_number - 1)`.  `none` models a panic: for
`row_number = 0` the `usize` subtraction `0 - 1` panics (debug) or wraps to
`usize::MAX` and `remove` panics (release); for `row_number - 1 ≥ length`
`remove` panics. -/
def ExpenseTracker.delete_expense (t : ExpenseTracker) (row_number : Nat) :
    Option ExpenseTracker :=
  if row_number = 0 then none
  else (vecRemove t.expenses (row_number - 1)).map fun es => ⟨es⟩

/-- `ExpenseTracker::summary_all`: `self.expenses.iter().map(|e| e.amount).sum()`,
i.e. a left fold of `+` over the amounts starting from `0.0`. -/
def ExpenseTracker.summary_all (t : ExpenseTracker) : ℚ :=
  t.expenses.foldl (fun sum e => sum + e.amount) 0

/-- `ExpenseTracker::summary_by_category(filter_by)`: loop over the expenses,
adding `amount` whenever `category == *filter_by` (exact `String` equality). -/
def ExpenseTracker.summary_by_category (t : ExpenseTracker) (filter_by : String) : ℚ :=
  t.expenses.foldl (fun sum e => if e.category = filter_by then sum + e.amount else sum) 0

/-- `ExpenseTracker::summary_by_date(date)`: loop over the expenses, adding
`amount` whenever `date` is exactly equal. -/
def ExpenseTracker.summary_by_date (t : ExpenseTracker) (date : NaiveDate) : ℚ :=
  t.expenses.foldl (fun sum e => if e.date = date then sum + e.amount else sum) 0

/-- `ExpenseTracker::summary_by_month(month)`: loop over the expenses, adding
`amount` whenever `expense.date.month() as u8 == *month`; the `as u8` cast is
the truncation `% 256`. -/
def ExpenseTracker.summary_by_month (t : ExpenseTracker) (month : Nat) : ℚ :=
  t.expenses.foldl (fun sum e => if e.date.month % 256 = month then sum + e.amount else sum) 0

/-! ### Generic facts about the summing loops -/

/-- A conditional summing loop started at `a` is `a` plus the loop started
at `0`. -/
theorem foldl_cond_add_shift (p : Expense → Prop) [DecidablePred p]
    (l : List Expense) (a : ℚ) :
    l.foldl (fun sum e => if p e then sum + e.amount else sum) a
      = a + l.foldl (fun sum e => if p e then sum + e.amount else sum) 0 := by
  induction l generalizing a with
  | nil => simp
  | cons e l ih =>
    by_cases h : p e
    · simp only [List.foldl_cons, if_pos h]
      rw [ih, ih (0 + e.amount)]
      ring
    · simp only [List.foldl_cons, if_neg h]
      exact ih a

/-- The conditional summing loop computes the sum of the amounts of the
records passing the filter. -/
theorem foldl_cond_eq_filter_sum (p : Expense → Prop) [DecidablePred p]
    (l : List Expense) :
    l.foldl (fun sum e => if p e then sum + e.amount else sum) 0
      = ((l.filter fun e => decide (p e)).map Expense.amount).sum := by
  induction l with
  | nil => simp
  | cons e l ih =>
    by_cases h : p e
    · simp only [List.foldl_cons, if_pos h, List.filter_cons,
        decide_eq_true h, ite_true, List.map_cons, List.sum_cons]
      rw [foldl_cond_add_shift]
      simp [ih]
    · simp only [List.foldl_cons, if_neg h, List.filter_cons,
        decide_eq_false h, ite_false]
      exact ih

/-- The unconditional summing loop computes the sum of all amounts. -/
theorem foldl_add_eq_map_sum (l : List Expense) (a : ℚ) :
    l.foldl (fun sum e => sum + e.amount) a = a + (l.map Expense.amount).sum := by
  induction l generalizing a with
  | nil => simp
  | cons e l ih => simp [List.foldl_cons, ih] ; ring

/-! ### The `YYYY-MM-DD` wire format of dates

chrono serializes a `NaiveDate` (with serde) as its `%Y-%m-%d` rendering:
the zero-padded four-digit year, two-digit month and two-digit day joined by
hyphens, and `NaiveDate::parse_from_str(s, "%Y-%m-%d")` inverts it,
rejecting strings that are not of that shape or denote no valid date. -/

/-- The ASCII character of a decimal digit. -/
def digitToChar (d : Nat) : Char := Char.ofNat (48 + d)

/-- The decimal digit denoted by an ASCII character, if any. -/
def charToDigit (c : Char) : Option Nat :=
  if 48 ≤ c.toNat ∧ c.toNat ≤ 57 then some (c.toNat - 48) else none

/-- Whether a character is a decimal digit. -/
def isDig (c : Char) : Bool := (charToDigit c).isSome

/-- The decimal rendering of a natural number, most significant digit first. -/
def natChars (n : Nat) : List Char :=
  if n = 0 then ['0'] else ((Nat.digits 10 n).map digitToChar).reverse

/-- The decimal rendering of `n`, left-padded with zeros to width `w`. -/
def padChars (w n : Nat) : List Char :=
  List.replicate (w - (natChars n).length) '0' ++ natChars n

/-- Left-to-right accumulation of decimal digits, failing on a non-digit. -/
def parseNatAux : List Char → Nat → Option Nat
  | [], acc => some acc
  | c :: cs, acc =>
    match charToDigit c with
    | some d => parseNatAux cs (10 * acc + d)
    | none => none

/-- The `%Y-%m-%d` rendering of a date as a character list. -/
def dateChars (d : NaiveDate) : List Char :=
  padChars 4 d.year ++ '-' :: (padChars 2 d.month ++ '-' :: padChars 2 d.day)

/-- chrono `NaiveDate` `Display` with format `%Y-%m-%d` (what serde writes). -/
def NaiveDate.toWire (d : NaiveDate) : String := ⟨dateChars d⟩

/-- Consume a single hyphen separator from the front of the input. -/
def expectDash : List Char → Option (List Char)
  | c :: r => if c = '-' then some r else none
  | [] => none

/-- chrono `NaiveDate::parse_from_str` with format `%Y-%m-%d` on a character
list: digits, hyphen, digits, hyphen, digits, end of input, then the calendar
validity check chrono performs on construction. -/
def parseDateChars (cs : List Char) : Option NaiveDate :=
  match cs.span isDig with
  | (ys, r1) =>
    match expectDash r1 with
    | none => none
    | some r2 =>
      match r2.span isDig with
      | (ms, r3) =>
        match expectDash r3 with
        | none => none
        | some r4 =>
          match r4.span isDig with
          | (ds, r5) =>
            if r5 = [] ∧ ys ≠ [] ∧ ms ≠ [] ∧ ds ≠ [] then
              match parseNatAux ys 0, parseNatAux ms 0, parseNatAux ds 0 with
              | some y, some m, some dd =>
                if NaiveDate.valid ⟨y, m, dd⟩ then some ⟨y, m, dd⟩ else none
              | _, _, _ => none
            else none

/-- chrono `NaiveDate::parse_from_str(s, "%Y-%m-%d")` (what serde reads). -/
def NaiveDate.parseWire (s : String) : Option NaiveDate := parseDateChars s.data

/-! ### Correctness of the date wire format -/

theorem charToDigit_digitToChar {d : Nat} (hd : d < 10) :
    charToDigit (digitToChar d) = some d := by
  interval_cases d <;> rfl

theorem isDig_digitToChar {d : Nat} (hd : d < 10) : isDig (digitToChar d) = true := by
  simp [isDig, charToDigit_digitToChar hd]

theorem parseNatAux_append (xs ys : List Char) (acc : Nat) :
    parseNatAux (xs ++ ys) acc = (parseNatAux xs acc).bind (parseNatAux ys) := by
  induction xs generalizing acc with
  | nil => simp [parseNatAux]
  | cons c cs ih =>
    simp only [List.cons_append, parseNatAux]
    cases charToDigit c with
    | none => rfl
    | some d => exact ih _

theorem parseNatAux_replicate_zero (k : Nat) :
    parseNatAux (List.replicate k '0') 0 = some 0 := by
  induction k with
  | zero => rfl
  | succ k ih => simpa [List.replicate, parseNatAux, charToDigit] using ih

theorem parseNatAux_digits (L : List Nat) (hL : ∀ d ∈ L, d < 10) (acc : Nat) :
    parseNatAux ((L.map digitToChar).reverse) acc
      = some (acc * 10 ^ L.length + Nat.ofDigits 10 L) := by
  induction L generalizing acc with
  | nil => simp [parseNatAux, Nat.ofDigits]
  | cons d L ih =>
    have hd : d < 10 := hL d (List.mem_cons_self d L)
    have hL' : ∀ x ∈ L, x < 10 := fun x hx => hL x (List.mem_cons_of_mem d hx)
    rw [List.map_cons, List.reverse_cons, parseNatAux_append, ih hL' acc]
    simp only [Option.some_bind, parseNatAux, charToDigit_digitToChar hd,
      Nat.ofDigits_cons, List.length_cons, Option.some.injEq]
    ring

theorem parseNatAux_natChars (n : Nat) : parseNatAux (natChars n) 0 = some n := by
  by_cases h : n = 0
  · subst h; rfl
  · rw [natChars, if_neg h,
      parseNatAux_digits _ (fun d hd => Nat.digits_lt_base (by norm_num) hd) 0]
    simp [Nat.ofDigits_digits]

theorem parseNatAux_padChars (w n : Nat) : parseNatAux (padChars w n) 0 = some n := by
  rw [padChars, parseNatAux_append, parseNatAux_replicate_zero]
  simpa using parseNatAux_natChars n

theorem natChars_all_digits (n : Nat) : ∀ c ∈ natChars n, isDig c = true := by
  intro c hc
  rw [natChars] at hc
  by_cases h : n = 0
  · simp [h] at hc
    subst hc; rfl
  · rw [if_neg h, List.mem_reverse, List.mem_map] at hc
    obtain ⟨d, hd, rfl⟩ := hc
    exact isDig_digitToChar (Nat.digits_lt_base (by norm_num) hd)

theorem padChars_all_digits (w n : Nat) : ∀ c ∈ padChars w n, isDig c = true := by
  intro c hc
  rw [padChars, List.mem_append] at hc
  rcases hc with hc | hc
  · rw [List.eq_of_mem_replicate hc]; rfl
  · exact natChars_all_digits n c hc

theorem natChars_ne_nil (n : Nat) : natChars n ≠ [] := by
  rw [natChars]
  by_cases h : n = 0
  · simp [h]
  · rw [if_neg h]
    simp [Nat.digits_ne_nil_iff_ne_zero.mpr h]

theorem padChars_ne_nil (w n : Nat) : padChars w n ≠ [] := by
  rw [padChars]
  intro h
  exact natChars_ne_nil n (List.append_eq_nil.mp h).2

theorem span_all_append (p : Char → Bool) (X : List Char) (c : Char) (r : List Char)
    (hX : ∀ x ∈ X, p x = true) (hc : p c = false) :
    (X ++ c :: r).span p = (X, c :: r) := by
  rw [List.span_eq_take_drop]
  induction X with
  | nil => simp [List.takeWhile_cons, List.dropWhile_cons, hc]
  | cons x X ih =>
    have hx : p x = true := hX x (List.mem_cons_self x X)
    have hX' : ∀ y ∈ X, p y = true := fun y hy => hX y (List.mem_cons_of_mem x hy)
    have := ih hX'
    simp only [List.cons_append, List.takeWhile_cons, List.dropWhile_cons, hx,
      ite_true, Prod.mk.injEq] at this ⊢
    exact ⟨by rw [this.1], this.2⟩

theorem span_all (p : Char → Bool) (X : List Char) (hX : ∀ x ∈ X, p x = true) :
    X.span p = (X, []) := by
  rw [List.span_eq_take_drop]
  induction X with
  | nil => simp
  | cons x X ih =>
    have hx : p x = true := hX x (List.mem_cons_self x X)
    have hX' : ∀ y ∈ X, p y = true := fun y hy => hX y (List.mem_cons_of_mem x hy)
    have := ih hX'
    simp only [List.takeWhile_cons, List.dropWhile_cons, hx, ite_true,
      Prod.mk.injEq] at this ⊢
    exact ⟨by rw [this.1], this.2⟩

/-- Parsing inverts printing on every valid date. -/
theorem parseWire_toWire {d : NaiveDate} (hv : d.valid = true) :
    NaiveDate.parseWire d.toWire = some d := by
  obtain ⟨y, m, dd⟩ := d
  have hdash : isDig '-' = false := rfl
  have h1 := span_all_append isDig (padChars 4 y) '-'
    (padChars 2 m ++ '-' :: padChars 2 dd) (padChars_all_digits 4 y) hdash
  have h2 := span_all_append isDig (padChars 2 m) '-' (padChars 2 dd)
    (padChars_all_digits 2 m) hdash
  have h3 := span_all isDig (padChars 2 dd) (padChars_all_digits 2 dd)
  rw [NaiveDate.parseWire, NaiveDate.toWire]
  show parseDateChars (dateChars ⟨y, m, dd⟩) = some ⟨y, m, dd⟩
  simp only [parseDateChars, dateChars, h1, h2, h3, expectDash,
    parseNatAux_padChars, padChars_ne_nil, ite_true, if_true,
    eq_self_iff_true, and_true, true_and, ne_eq, not_false_iff]
  rw [if_pos hv]

/-! ### The JSON store

`save_to_json` truncates the file and writes `serde_json::to_writer(file, &self)`;
`load_from_json` returns a fresh empty tracker when the path does not exist and
otherwise parses the file with `serde_json::from_reader`.  `Json` models the
serde_json value tree (numbers as exact rationals), the derived
`Serialize`/`Deserialize` of the two structs are `encodeTracker`/`decodeTracker`,
and a filesystem is a partial map from paths to the JSON value stored there. -/

/-- A serde_json value. -/
inductive Json where
  | null
  | jbool (b : Bool)
  | num (q : ℚ)
  | str (s : String)
  | arr (elems : List Json)
  | obj (fields : List (String × Json))

/-- The derived `Serialize` of `Expense` (dates as `%Y-%m-%d` strings). -/
def encodeExpense (e : Expense) : Json :=
  .obj [("date", .str e.date.toWire), ("category", .str e.category),
        ("amount", .num e.amount), ("description", .str e.description)]

/-- The derived `Serialize` of `ExpenseTracker`. -/
def encodeTracker (t : ExpenseTracker) : Json :=
  .obj [("expenses", .arr (t.expenses.map encodeExpense))]

/-- Read a JSON value as a string. -/
def Json.asStr : Json → Option String
  | .str s => some s
  | _ => none

/-- Read a JSON value as a number. -/
def Json.asNum : Json → Option ℚ
  | .num q => some q
  | _ => none

/-- The derived `Deserialize` of `Expense`: look up the four fields by name,
parse the date string, fail if any is missing or ill-typed. -/
def decodeExpense : Json → Option Expense
  | .obj fields =>
    match ((List.lookup "date" fields).bind Json.asStr).bind NaiveDate.parseWire,
        (List.lookup "category" fields).bind Json.asStr,
        (List.lookup "amount" fields).bind Json.asNum,
        (List.lookup "description" fields).bind Json.asStr with
    | some d, some c, some a, some ds => some ⟨d, c, a, ds⟩
    | _, _, _, _ => none
  | _ => none

/-- The `Deserialize` of `Vec<Expense>`: decode each element in order, failing
as soon as one element fails. -/
def decodeExpenses : List Json → Option (List Expense)
  | [] => some []
  | j :: js =>
    match decodeExpense j, decodeExpenses js with
    | some e, some es => some (e :: es)
    | _, _ => none

/-- The derived `Deserialize` of `ExpenseTracker`. -/
def decodeTracker : Json → Option ExpenseTracker
  | .obj fields =>
    match List.lookup "expenses" fields with
    | some (.arr elems) => (decodeExpenses elems).map fun es => ⟨es⟩
    | _ => none
  | _ => none

/-- A filesystem: each path maps to the JSON value stored there, if any. -/
def FileSys : Type := String → Option Json

/-- `ExpenseTracker::save_to_json(filename)`: truncate and rewrite the whole
file at `filename` with the serialized tracker. -/
def ExpenseTracker.save_to_json (t : ExpenseTracker) (filename : String)
    (fs : FileSys) : FileSys :=
  fun p => if p = filename then some (encodeTracker t) else fs p

/-- `ExpenseTracker::load_from_json(filename)`: a fresh empty tracker when the
path does not exist, otherwise the parse of the stored content (`none` models
a serde error). -/
def ExpenseTracker.load_from_json (filename : String) (fs : FileSys) :
    Option ExpenseTracker :=
  match fs filename with
  | none => some ExpenseTracker.new
  | some j => decodeTracker j

/-! ### Round-trip of the JSON store -/

theorem decodeExpense_encodeExpense {e : Expense} (hv : e.date.valid = true) :
    decodeExpense (encodeExpense e) = some e := by
  obtain ⟨d, c, a, ds⟩ := e
  simp [encodeExpense, decodeExpense, List.lookup, Json.asStr, Json.asNum,
    parseWire_toWire hv]

theorem decodeExpenses_map {l : List Expense}
    (hv : ∀ e ∈ l, e.date.valid = true) :
    decodeExpenses (l.map encodeExpense) = some l := by
  induction l with
  | nil => rfl
  | cons e l ih =>
    have he : e.date.valid = true := hv e (List.mem_cons_self e l)
    have hl : ∀ x ∈ l, x.date.valid = true :=
      fun x hx => hv x (List.mem_cons_of_mem e hx)
    simp only [List.map_cons, decodeExpenses, decodeExpense_encodeExpense he, ih hl]

theorem decodeTracker_encodeTracker {t : ExpenseTracker}
    (hv : ∀ e ∈ t.expenses, e.date.valid = true) :
    decodeTracker (encodeTracker t) = some t := by
  simp [encodeTracker, decodeTracker, List.lookup, decodeExpenses_map hv]

/-! ### The `summary` subcommand dispatch in `main` -/

/-- The filter flags of the `summary` subcommand as parsed by clap:
`--all` is a boolean flag, the other three carry a value when supplied. -/
structure SummaryArgs where
  all : Bool
  category : Option String
  date : Option String
  month : Option Nat
deriving DecidableEq, Repr

/-- One summary query of the tracker (the date and month arguments are kept
as parsed by clap: a raw string and a `u8`). -/
inductive SummaryQuery where
  | qAll
  | qCategory (c : String)
  | qDate (d : String)
  | qMonth (m : Nat)
deriving DecidableEq, Repr

/-- Whether a query is the `--all` total. -/
def SummaryQuery.isAll : SummaryQuery → Bool
  | .qAll => true
  | .qCategory _ => false
  | .qDate _ => false
  | .qMonth _ => false

/-- The `summary` branch of `main`, as the list of queries it runs, in order:
`if sub_matches.get_flag("all")` runs the total, and then a single `match` on
`(category, date, month)` runs at most one more query, the first matching
pattern among `(Some(category), _, _)`, `(_, Some(date), _)`,
`(_, _, Some(month))` winning (the final wildcard arm only prints an error). -/
def summaryQueries (a : SummaryArgs) : List SummaryQuery :=
  (if a.all then [SummaryQuery.qAll] else []) ++
    (match a.category, a.date, a.month with
     | some c, _, _ => [SummaryQuery.qCategory c]
     | _, some d, _ => [SummaryQuery.qDate d]
     | _, _, some m => [SummaryQuery.qMonth m]
     | _, _, _ => [])

/-! ### Partitioning the total by category -/

theorem sum_map_add (ks : List String) (f g : String → ℚ) :
    (ks.map fun c => f c + g c).sum = (ks.map f).sum + (ks.map g).sum := by
  induction ks with
  | nil => simp
  | cons k ks ih =>
    simp only [List.map_cons, List.sum_cons, ih]
    ring

theorem sum_map_indicator (ks : List String) (s : String) (q : ℚ)
    (hnd : ks.Nodup) (hs : s ∈ ks) :
    (ks.map fun c => if s = c then q else 0).sum = q := by
  induction ks with
  | nil => cases hs
  | cons k ks ih =>
    rcases List.mem_cons.mp hs with rfl | hs'
    · have hnotin : s ∉ ks := (List.nodup_cons.mp hnd).1
      have hzero : (ks.map fun c => if s = c then q else 0).sum = 0 := by
        apply List.sum_eq_zero
        intro x hx
        rw [List.mem_map] at hx
        obtain ⟨c, hc, rfl⟩ := hx
        rw [if_neg]
        intro h
        exact hnotin (h ▸ hc)
      simp [hzero]
    · have hk : s ≠ k := by
        rintro rfl
        exact (List.nodup_cons.mp hnd).1 hs'
      simp [if_neg hk, ih (List.nodup_cons.mp hnd).2 hs']

/-- Summing, over a duplicate-free list of keys covering every category in
`l`, the amounts of the records of each key, gives the total. -/
theorem partition_filter_sum (l : List Expense) (ks : List String)
    (hnd : ks.Nodup) (hcov : ∀ e ∈ l, e.category ∈ ks) :
    (ks.map fun c =>
        ((l.filter fun e => e.category = c).map Expense.amount).sum).sum
      = (l.map Expense.amount).sum := by
  induction l with
  | nil => simp
  | cons e l ih =>
    have he : e.category ∈ ks := hcov e (List.mem_cons_self e l)
    have hcov' : ∀ x ∈ l, x.category ∈ ks :=
      fun x hx => hcov x (List.mem_cons_of_mem e hx)
    have step : ∀ c ∈ ks,
        (((e :: l).filter fun x => x.category = c).map Expense.amount).sum
          = (if e.category = c then e.amount else 0)
              + ((l.filter fun x => x.category = c).map Expense.amount).sum := by
      intro c _
      by_cases h : e.category = c
      · simp [List.filter_cons, h]
      · simp [List.filter_cons, h]
    rw [List.map_congr_left step,
      sum_map_add ks (fun c => if e.category = c then e.amount else 0)
        (fun c => ((l.filter fun x => x.category = c).map Expense.amount).sum),
      sum_map_indicator ks e.category e.amount hnd he, ih hcov']
    simp

/-! ### Facts shared by the month-summary claims -/

theorem month_bounds_of_valid {d : NaiveDate} (h : d.valid = true) :
    1 ≤ d.month ∧ d.month ≤ 12 := by
  simp only [NaiveDate.valid, Bool.and_eq_true, decide_eq_true_eq] at h
  exact ⟨h.1.1.1.1, h.1.1.1.2⟩

/-- For a ledger of (chrono-)valid dates the `as u8` cast in
`summary_by_month` is the identity, and the loop sums the amounts of the
records whose month field equals the argument. -/
theorem summary_by_month_filter (t : ExpenseTracker) (m : Nat)
    (hv : ∀ e ∈ t.expenses, e.date.valid = true) :
    t.summary_by_month m
      = ((t.expenses.filter fun e => e.date.month = m).map Expense.amount).sum := by
  have hfeq : (t.expenses.filter fun e => decide (e.date.month % 256 = m))
      = (t.expenses.filter fun e => decide (e.date.month = m)) := by
    apply List.filter_congr
    intro e he
    have hm12 := (month_bounds_of_valid (hv e he)).2
    have hmod : e.date.month % 256 = e.date.month := Nat.mod_eq_of_lt (by omega)
    rw [hmod]
  unfold ExpenseTracker.summary_by_month
  rw [foldl_cond_eq_filter_sum (fun e => e.date.month % 256 = m) t.expenses, hfeq]

/-! ## The claims -/

/-- A concrete sample record (food, 12.50, 2025-01-10). -/
def expLunch : Expense := ⟨⟨2025, 1, 10⟩, "food", 25/2, "lunch"⟩

/-- A concrete sample record (food, 7.25, 2025-01-11). -/
def expCoffee : Expense := ⟨⟨2025, 1, 11⟩, "food", 29/4, "coffee"⟩

/-- A concrete sample record (travel, 10, 2023-03-05). -/
def expTrain : Expense := ⟨⟨2023, 3, 5⟩, "travel", 10, "train"⟩

/-- A concrete sample record (travel, 20, 2024-03-20). -/
def expFlight : Expense := ⟨⟨2024, 3, 20⟩, "travel", 20, "flight"⟩

/-- C1: contrary to the claim, `delete_expense` never refuses an out-of-range
row number: on a two-record ledger `delete 5` reaches `expenses.remove(4)`,
which panics (`none`) instead of failing with a reported `OutOfRange` and
leaving the ledger unchanged; on the empty ledger `delete 1` prints
"No expenses found." but then still reaches `remove(0)` and panics.  The
out-of-bounds removal *is* attempted. -/
theorem delete_out_of_range_crashes :
    ExpenseTracker.delete_expense ⟨[expLunch, expCoffee]⟩ 5 = none ∧
      ExpenseTracker.delete_expense ExpenseTracker.new 1 = none := by
  constructor <;> rfl

/-- C2 counterexample: when `--all` and `--category food` are supplied
together the summary branch runs two queries (`summary_all` from the `if`
on the flag and `summary_by_category` from the `match`), not exactly one. -/
theorem summary_two_queries_run :
    summaryQueries ⟨true, some "food", none, none⟩
        = [SummaryQuery.qAll, SummaryQuery.qCategory "food"] ∧
      (summaryQueries ⟨true, some "food", none, none⟩).length ≠ 1 := by
  constructor
  · rfl
  · decide

/-- C2 amended: at most one of the category/date/month queries runs per
invocation, chosen by the precedence category > date > month (first match
wins); the `--all` total runs exactly when that flag is set, in addition to
(and before) any such query, so an invocation can run two queries. -/
theorem summary_query_precedence (a : SummaryArgs) :
    ((SummaryQuery.qAll ∈ summaryQueries a) ↔ a.all = true) ∧
      ((summaryQueries a).filter (fun q => !q.isAll)).length ≤ 1 ∧
      (∀ c, a.category = some c →
        (summaryQueries a).filter (fun q => !q.isAll)
          = [SummaryQuery.qCategory c]) ∧
      (∀ d, a.category = none → a.date = some d →
        (summaryQueries a).filter (fun q => !q.isAll) = [SummaryQuery.qDate d]) ∧
      (∀ m, a.category = none → a.date = none → a.month = some m →
        (summaryQueries a).filter (fun q => !q.isAll)
          = [SummaryQuery.qMonth m]) := by
  obtain ⟨all, cat, date, mon⟩ := a
  cases all <;> rcases cat with _ | c <;> rcases date with _ | d <;>
    rcases mon with _ | m <;>
    simp [summaryQueries, SummaryQuery.isAll]

/-- C2 witness: with only `--date 2025-01-10` (and an ignored `--month`),
exactly the date query runs. -/
theorem summary_query_precedence_witness :
    (summaryQueries ⟨false, none, some "2025-01-10", some 7⟩).filter
        (fun q => !q.isAll) = [SummaryQuery.qDate "2025-01-10"] :=
  (summary_query_precedence ⟨false, none, some "2025-01-10", some 7⟩).2.2.2.1
    "2025-01-10" rfl rfl

/-- C3: saving a ledger to the store and loading it back yields the same
ledger, field-for-field, with the records in the same order. -/
theorem save_load_round_trip (t : ExpenseTracker) (path : String) (fs : FileSys)
    (hv : ∀ e ∈ t.expenses, e.date.valid = true) :
    ExpenseTracker.load_from_json path (t.save_to_json path fs) = some t := by
  have hstore : t.save_to_json path fs path = some (encodeTracker t) := by
    unfold ExpenseTracker.save_to_json
    simp
  simp only [ExpenseTracker.load_from_json, hstore]
  exact decodeTracker_encodeTracker hv

/-- C3 witness: the round trip on a concrete two-record ledger. -/
theorem save_load_round_trip_witness :
    ExpenseTracker.load_from_json "expenses.json"
        (ExpenseTracker.save_to_json ⟨[expLunch, expCoffee]⟩ "expenses.json"
          fun _ => none)
      = some ⟨[expLunch, expCoffee]⟩ :=
  save_load_round_trip ⟨[expLunch, expCoffee]⟩ "expenses.json" (fun _ => none)
    (by decide)

/-- C4: on a ledger with `1 ≤ rowNumber ≤ length`, delete succeeds and removes
exactly the record at 1-based position `rowNumber`: the result is the records
before it followed by the records after it, the length drops by one, every
earlier position is unchanged, and every later record moves down by exactly
one position. -/
theorem delete_in_range_removes_row (t : ExpenseTracker) (r : Nat)
    (h1 : 1 ≤ r) (h2 : r ≤ t.expenses.length) :
    ∃ t' : ExpenseTracker,
      t.delete_expense r = some t' ∧
        t'.expenses = t.expenses.take (r - 1) ++ t.expenses.drop r ∧
        t'.expenses.length + 1 = t.expenses.length ∧
        (∀ i, i < r - 1 → t'.expenses[i]? = t.expenses[i]?) ∧
        (∀ i, r - 1 ≤ i → t'.expenses[i]? = t.expenses[i + 1]?) := by
  have hr : r - 1 < t.expenses.length := by omega
  refine ⟨⟨t.expenses.eraseIdx (r - 1)⟩, ?_, ?_, ?_, ?_, ?_⟩
  · rw [ExpenseTracker.delete_expense, if_neg (by omega), vecRemove, if_pos hr]
    rfl
  · have h := List.eraseIdx_eq_take_drop_succ t.expenses (r - 1)
    rwa [Nat.sub_add_cancel h1] at h
  · rw [List.length_eraseIdx_of_lt hr]
    omega
  · intro i hi
    exact List.getElem?_eraseIdx_of_lt _ _ _ hi
  · intro i hi
    exact List.getElem?_eraseIdx_of_ge _ _ _ hi

/-- C4 witness: deleting row 2 of a three-record ledger. -/
theorem delete_in_range_removes_row_witness :
    ∃ t' : ExpenseTracker,
      ExpenseTracker.delete_expense ⟨[expLunch, expCoffee, expTrain]⟩ 2
          = some t' ∧
        t'.expenses
            = ([expLunch, expCoffee, expTrain].take 1
                ++ [expLunch, expCoffee, expTrain].drop 2 : List Expense) ∧
        t'.expenses.length + 1
            = (⟨[expLunch, expCoffee, expTrain]⟩ : ExpenseTracker).expenses.length ∧
        (∀ i, i < 1 →
          t'.expenses[i]?
            = (⟨[expLunch, expCoffee, expTrain]⟩ : ExpenseTracker).expenses[i]?) ∧
        (∀ i, 1 ≤ i →
          t'.expenses[i]?
            = (⟨[expLunch, expCoffee, expTrain]⟩ : ExpenseTracker).expenses[i + 1]?) :=
  delete_in_range_removes_row ⟨[expLunch, expCoffee, expTrain]⟩ 2
    (by decide) (by decide)

/-- C5: `summary_all` returns the arithmetic sum of every record's amount,
and `0` on the empty ledger. -/
theorem summary_all_is_total_sum (t : ExpenseTracker) :
    t.summary_all = (t.expenses.map Expense.amount).sum ∧
      (t.expenses = [] → t.summary_all = 0) := by
  have h : t.summary_all = (t.expenses.map Expense.amount).sum := by
    unfold ExpenseTracker.summary_all
    rw [foldl_add_eq_map_sum, zero_add]
  refine ⟨h, fun hnil => ?_⟩
  rw [h, hnil]
  rfl

/-- C5 witness: the empty ledger sums to `0`, and a concrete two-record
ledger sums to `12.50 + 7.25`. -/
theorem summary_all_is_total_sum_witness :
    ExpenseTracker.new.summary_all = 0 ∧
      ExpenseTracker.summary_all ⟨[expLunch, expCoffee]⟩
        = ([expLunch, expCoffee].map Expense.amount).sum :=
  ⟨(summary_all_is_total_sum ExpenseTracker.new).2 rfl,
    (summary_all_is_total_sum ⟨[expLunch, expCoffee]⟩).1⟩

/-- C6: `summary_by_category` sums the amounts over exactly the records whose
category is equal (exact, case-sensitive string equality) to the label, and
returns `0` when no record's category equals the label. -/
theorem summary_by_category_exact_match (t : ExpenseTracker) (lab : String) :
    t.summary_by_category lab
        = ((t.expenses.filter fun e => e.category = lab).map Expense.amount).sum ∧
      ((∀ e ∈ t.expenses, e.category ≠ lab) → t.summary_by_category lab = 0) := by
  have h : t.summary_by_category lab
      = ((t.expenses.filter fun e => e.category = lab).map Expense.amount).sum := by
    unfold ExpenseTracker.summary_by_category
    rw [foldl_cond_eq_filter_sum (fun e => e.category = lab) t.expenses]
  refine ⟨h, fun hnone => ?_⟩
  rw [h, List.filter_eq_nil_iff.mpr ?_]
  · rfl
  · intro e he
    simp [hnone e he]

/-- C6 witness: no `"food"` record in a travel-only ledger, so the category
summary is `0`. -/
theorem summary_by_category_exact_match_witness :
    ExpenseTracker.summary_by_category ⟨[expTrain]⟩ "food" = 0 :=
  (summary_by_category_exact_match ⟨[expTrain]⟩ "food").2 (by decide)

/-- C7: for a month number in `[1,12]`, `summary_by_month` sums the amounts of
all records whose date's month-of-year equals it, regardless of the record's
year. -/
theorem summary_by_month_any_year (t : ExpenseTracker) (m : Nat)
    (_h1 : 1 ≤ m) (_h2 : m ≤ 12) (hv : ∀ e ∈ t.expenses, e.date.valid = true) :
    t.summary_by_month m
      = ((t.expenses.filter fun e => e.date.month = m).map Expense.amount).sum :=
  summary_by_month_filter t m hv

/-- C7 witness: records dated 2023-03-05 and 2024-03-20 both count toward
month 3, giving `10 + 20`. -/
theorem summary_by_month_any_year_witness :
    ExpenseTracker.summary_by_month ⟨[expTrain, expFlight]⟩ 3 = 30 := by
  rw [summary_by_month_any_year ⟨[expTrain, expFlight]⟩ 3 (by decide) (by decide)
    (by decide)]
  simp [expTrain, expFlight]
  norm_num

/-- C8: the total equals the sum, over the distinct category labels present in
the ledger, of the per-category summaries (the category queries partition the
total). -/
theorem summary_partition_by_category (t : ExpenseTracker) :
    t.summary_all
      = ((t.expenses.map Expense.category).dedup.map
          fun c => t.summary_by_category c).sum := by
  have hall : t.summary_all = (t.expenses.map Expense.amount).sum := by
    unfold ExpenseTracker.summary_all
    rw [foldl_add_eq_map_sum, zero_add]
  have hcat : ∀ c ∈ (t.expenses.map Expense.category).dedup,
      t.summary_by_category c
        = ((t.expenses.filter fun e => e.category = c).map Expense.amount).sum := by
    intro c _
    unfold ExpenseTracker.summary_by_category
    rw [foldl_cond_eq_filter_sum (fun e => e.category = c) t.expenses]
  rw [hall, List.map_congr_left hcat]
  exact (partition_filter_sum t.expenses _ (List.nodup_dedup _)
    (fun e he => List.mem_dedup.mpr (List.mem_map_of_mem Expense.category he))).symm

/-- C9: loading from a path with no store file succeeds with a fresh empty
ledger, and a load failure can only come from an existing file whose content
does not decode as a tracker. -/
theorem load_missing_gives_empty (fs : FileSys) (path : String) :
    (fs path = none →
        ExpenseTracker.load_from_json path fs = some ExpenseTracker.new) ∧
      (ExpenseTracker.load_from_json path fs = none →
        ∃ j, fs path = some j ∧ decodeTracker j = none) := by
  constructor
  · intro h
    simp only [ExpenseTracker.load_from_json, h]
  · intro h
    cases hj : fs path with
    | none =>
      rw [ExpenseTracker.load_from_json, hj] at h
      cases h
    | some j =>
      refine ⟨j, rfl, ?_⟩
      rwa [ExpenseTracker.load_from_json, hj] at h

/-- C9 witness: loading from an empty filesystem yields the empty tracker. -/
theorem load_missing_gives_empty_witness :
    ExpenseTracker.load_from_json "expenses.json" (fun _ => none)
      = some ExpenseTracker.new :=
  (load_missing_gives_empty (fun _ => none) "expenses.json").1 rfl

/-- C10: for every `u8` month argument, `summary_by_month` is total and sums
the amounts of the records whose month equals the argument; for an argument
outside `[1,12]` (such as `0` or `13`) no valid date matches, so it
returns `0`. -/
theorem summary_by_month_out_of_range_zero (t : ExpenseTracker) (m : Nat)
    (_hm : m < 256) (hv : ∀ e ∈ t.expenses, e.date.valid = true) :
    t.summary_by_month m
        = ((t.expenses.filter fun e => e.date.month = m).map Expense.amount).sum ∧
      (m = 0 ∨ 12 < m → t.summary_by_month m = 0) := by
  have h := summary_by_month_filter t m hv
  refine ⟨h, fun hout => ?_⟩
  rw [h, List.filter_eq_nil_iff.mpr ?_]
  · rfl
  · intro e he
    have hb := month_bounds_of_valid (hv e he)
    simp only [decide_eq_true_eq]
    omega

/-- C10 witness: month argument `13` on a valid ledger returns `0`. -/
theorem summary_by_month_out_of_range_zero_witness :
    ExpenseTracker.summary_by_month ⟨[expTrain]⟩ 13 = 0 :=
  (summary_by_month_out_of_range_zero ⟨[expTrain]⟩ 13 (by decide) (by decide)).2
    (Or.inr (by decide))

end ExpenseRS
